import Mathlib

/-!
Verification of `p2d-stats.py`: a script that aggregates per-author
"lines changed" statistics across repositories by parsing the textual
report of `git-quick-stats -T`.

The Python source is shallowly embedded below:
* strings are `List Char`; `str.splitlines`, `str.strip`, substring
  containment (`in`), and the two regular expressions used by the
  parser are modelled as executable functions;
* Python dicts (insertion-ordered, unique string keys) are association
  lists `List (String × Nat)` with `dictGet` / `dictSet`;
* `parse_detailed_stats` is embedded with the same two nested
  index-advancing loops as the source (`parseLoop` / `parseBlock`);
  a fuel-and-bounds-checked variant (`parseLoopF` / `parseBlockF`)
  models the possibility of a non-terminating `while` loop or an
  out-of-range list access, and is proved to agree with the total one;
* the effectful parts (`ensure_git_quick_stats_installed`,
  `clone_or_update`, `gather_stats`, `main`) are embedded as functions
  from an abstract environment (which subprocesses succeed, what the
  stats tool prints) to a trace of external events plus an
  `Except`-style outcome; the `with tempfile.TemporaryDirectory()`
  block is translated as unconditionally emitting the release event
  around its body, which is the context-manager semantics.
-/

namespace P2D

/-! ## Character classes (Python `str.isspace` / `str.splitlines`) -/

/-- Characters stripped by Python `str.strip()` and matched by the regex
class `\s` (Unicode whitespace). -/
def pyIsSpace (c : Char) : Bool :=
  c = ' ' || c = '\t' || c = '\n' || c = '\r' || c = '\x0b' || c = '\x0c' ||
  c = '\x1c' || c = '\x1d' || c = '\x1e' || c = '\x1f' || c = '\x85' || c = '\xa0' ||
  c = '\u1680' || ('\u2000' ≤ c && c ≤ '\u200a') || c = '\u2028' || c = '\u2029' ||
  c = '\u202f' || c = '\u205f' || c = '\u3000'

/-- Line terminators recognised by Python `str.splitlines`. -/
def isLineBreak (c : Char) : Bool :=
  c = '\n' || c = '\r' || c = '\x0b' || c = '\x0c' || c = '\x1c' || c = '\x1d' ||
  c = '\x1e' || c = '\x85' || c = '\u2028' || c = '\u2029'

/-- Python `str.strip()`: drop whitespace from both ends. -/
def pyStrip (s : List Char) : List Char :=
  ((s.dropWhile pyIsSpace).reverse.dropWhile pyIsSpace).reverse

/-- Helper for `splitlines`; `acc` is the current (reversed) line.  A
line terminator emits the current line; the pair `"\r\n"` counts as a
single terminator. -/
def splitlinesAux : List Char → List Char → List (List Char)
  | [], acc => if acc.isEmpty then [] else [acc.reverse]
  | c :: rest, acc =>
    if isLineBreak c then
      match rest with
      | [] => [acc.reverse]
      | c2 :: rest2 =>
        if c = '\r' ∧ c2 = '\n' then acc.reverse :: splitlinesAux rest2 []
        else acc.reverse :: splitlinesAux (c2 :: rest2) []
    else splitlinesAux rest (c :: acc)

/-- Unconditional unfolding of `splitlinesAux` on a nonempty input. -/
theorem splitlinesAux_cons (c : Char) (rest acc : List Char) :
    splitlinesAux (c :: rest) acc
      = if c = '\r' ∧ rest.head? = some '\n'
        then acc.reverse :: splitlinesAux rest.tail []
        else if isLineBreak c then acc.reverse :: splitlinesAux rest []
        else splitlinesAux rest (c :: acc) := by
  rcases rest with _ | ⟨c2, rest2⟩
  · rw [show splitlinesAux [c] acc
        = if isLineBreak c then [acc.reverse] else splitlinesAux [] (c :: acc) from rfl]
    rw [if_neg (show ¬(c = '\r' ∧ ([] : List Char).head? = some '\n') from
      fun h => Option.noConfusion h.2)]
    by_cases hbr : isLineBreak c
    · rw [if_pos hbr, if_pos hbr]
      rfl
    · rw [if_neg hbr, if_neg hbr]
  · rw [show splitlinesAux (c :: c2 :: rest2) acc
        = if isLineBreak c then
            (if c = '\r' ∧ c2 = '\n' then acc.reverse :: splitlinesAux rest2 []
             else acc.reverse :: splitlinesAux (c2 :: rest2) [])
          else splitlinesAux (c2 :: rest2) (c :: acc) from rfl]
    by_cases hrn : c = '\r' ∧ c2 = '\n'
    · obtain ⟨h1, h2⟩ := hrn
      subst h1
      subst h2
      rw [if_pos (show isLineBreak '\r' = true from rfl)]
      rw [if_pos (show '\r' = '\r' ∧ '\n' = '\n' from ⟨rfl, rfl⟩)]
      rw [if_pos (show '\r' = '\r' ∧ ('\n' :: rest2).head? = some '\n' from ⟨rfl, rfl⟩)]
      rfl
    · have h1 : ¬(c = '\r' ∧ (c2 :: rest2).head? = some '\n') := by
        rintro ⟨ha, hb⟩
        rw [List.head?_cons, Option.some.injEq] at hb
        exact hrn ⟨ha, hb⟩
      rw [if_neg h1]
      by_cases hbr : isLineBreak c
      · rw [if_pos hbr, if_pos hbr, if_neg hrn]
      · rw [if_neg hbr, if_neg hbr]

/-- Python `str.splitlines()`. -/
def splitlines (s : List Char) : List (List Char) :=
  splitlinesAux s []

/-- Python substring containment `needle in hay`. -/
def containsSub : List Char → List Char → Bool
  | hay, needle =>
    if needle.isPrefixOf hay then true
    else
      match hay with
      | [] => false
      | _ :: t => containsSub t needle

/-! ## The two regular expressions of `parse_detailed_stats` -/

/-- After the literal `" <"` of the header regex `^(.+?) <.+?>:$`, the rest
of the line must be a nonempty email followed by `">:"` at end of line. -/
def suffixOk (tail : List Char) : Bool :=
  3 ≤ tail.length && [':', '>'].isPrefixOf tail.reverse

/-- Scanner for `re.match(r"^(.+?) <.+?>:$", header)`: the non-greedy group
takes the shortest nonempty prefix that is followed by `" <"` such that the
remainder is a nonempty email ending in `">:"`; on failure the prefix grows
by one character.  `revPre` is the reversed prefix consumed so far. -/
def headerMatchAux (revPre : List Char) : List Char → Option (List Char)
  | [] => none
  | c :: rest =>
    if c = ' ' then
      match rest with
      | '<' :: tail =>
        if !revPre.isEmpty && suffixOk tail then some revPre.reverse
        else headerMatchAux (c :: revPre) rest
      | _ => headerMatchAux (c :: revPre) rest
    else headerMatchAux (c :: revPre) rest

/-- `re.match(r"^(.+?) <.+?>:$", header)`, returning group 1. -/
def headerMatch (header : List Char) : Option (List Char) :=
  headerMatchAux [] header

/-- The code points of the zero digits of Unicode's decimal-digit
category `Nd` (Unicode 14.0, as shipped with CPython 3.11): every `Nd`
character sits in a run of exactly ten code points `z .. z+9` starting
at one of these zeros, with decimal value equal to its offset in the
run.  Python's regex class `\d` on `str` patterns matches exactly the
`Nd` characters, and `int()` reads them by their decimal value. -/
def ndZeroDigits : List Nat :=
  [0x30, 0x660, 0x6f0, 0x7c0, 0x966, 0x9e6, 0xa66, 0xae6, 0xb66, 0xbe6,
   0xc66, 0xce6, 0xd66, 0xde6, 0xe50, 0xed0, 0xf20, 0x1040, 0x1090, 0x17e0,
   0x1810, 0x1946, 0x19d0, 0x1a80, 0x1a90, 0x1b50, 0x1bb0, 0x1c40, 0x1c50,
   0xa620, 0xa8d0, 0xa900, 0xa9d0, 0xa9f0, 0xaa50, 0xabf0, 0xff10, 0x104a0,
   0x10d30, 0x11066, 0x110f0, 0x11136, 0x111d0, 0x112f0, 0x11450, 0x114d0,
   0x11650, 0x116c0, 0x11730, 0x118e0, 0x11950, 0x11c50, 0x11d50, 0x11da0,
   0x16a60, 0x16ac0, 0x16b50, 0x1d7ce, 0x1d7d8, 0x1d7e2, 0x1d7ec, 0x1d7f6,
   0x1e140, 0x1e2f0, 0x1e950, 0x1fbf0]

/-- The regex class `\d`: any Unicode decimal digit (category `Nd`). -/
def pyIsDigit (c : Char) : Bool :=
  ndZeroDigits.any (fun z => z ≤ c.toNat && c.toNat ≤ z + 9)

/-- The decimal value of a `\d` character (0 for a non-digit). -/
def pyDigitVal (c : Char) : Nat :=
  match ndZeroDigits.find? (fun z => z ≤ c.toNat && c.toNat ≤ z + 9) with
  | some z => c.toNat - z
  | none => 0

/-- Numeric value of a digit string (`int(...)` on the match of `\d+`;
`int` accepts any Unicode decimal digits, e.g. `int("12٣") = 123`). -/
def digitsVal (ds : List Char) : Nat :=
  ds.foldl (fun n c => n * 10 + pyDigitVal c) 0

/-- `re.match(r"^lines changed:\s+(\d+)", entry)`, returning `int` of
group 1: the literal prefix, at least one whitespace, then the maximal
run of digits (at least one); anything may follow. -/
def entryMatch (entry : List Char) : Option Nat :=
  if ("lines changed:".toList).isPrefixOf entry then
    let r := entry.drop 14
    let ws := r.takeWhile pyIsSpace
    let ds := (r.dropWhile pyIsSpace).takeWhile pyIsDigit
    if ws.isEmpty || ds.isEmpty then none else some (digitsVal ds)
  else none

/-! ## Python dicts as insertion-ordered association lists -/

/-- A Python `dict` with string keys and integer values: an association
list in insertion order with (by construction) unique keys. -/
abbrev Dict := List (String × Nat)

/-- `d.get(key)` / `d[key]` lookup. -/
def dictGet : Dict → String → Option Nat
  | [], _ => none
  | (k, v) :: t, key => if k = key then some v else dictGet t key

/-- `d.get(key, dflt)`. -/
def dictGetD (d : Dict) (key : String) (dflt : Nat) : Nat :=
  (dictGet d key).getD dflt

/-- `d[key] = v`: update in place when the key is present (keeping its
position), otherwise append the new binding at the end. -/
def dictSet : Dict → String → Nat → Dict
  | [], key, v => [(key, v)]
  | (k, w) :: t, key, v =>
    if k = key then (k, v) :: t else (k, w) :: dictSet t key v

/-- `True` when no key occurs twice (always holds for a real Python dict). -/
def noDupKeys : Dict → Bool
  | [] => true
  | (k, _) :: t => (dictGet t k).isNone && noDupKeys t

/-! ## The report parser `parse_detailed_stats` -/

/-- `lines[i].startswith(" ")`. -/
def startsWithSpace (l : List Char) : Bool :=
  l.head? = some ' '

/-- The marker heading searched for with `in`. -/
def markerChars : List Char := "Contribution stats By Author".toList

/-- The `for i, line in enumerate(lines)` search for the marker; returns
`start = i + 1` for the first line containing it. -/
def findStart : List (List Char) → Nat → Option Nat
  | [], _ => none
  | l :: ls, i => if containsSub l markerChars then some (i + 1) else findStart ls (i + 1)

/-- The inner `while i < len(lines) and lines[i].startswith(" ")` loop:
consumes the indented lines of an author block, each `lines changed` match
overwriting the running `lines_changed`; returns the final value together
with the index of the first line after the block. -/
def parseBlock (lines : List (List Char)) (i : Nat) (lc : Nat) : Nat × Nat :=
  if h : i < lines.length then
    if startsWithSpace lines[i] then
      parseBlock lines (i + 1) ((entryMatch (pyStrip lines[i])).getD lc)
    else (lc, i)
  else (lc, i)
termination_by lines.length - i

/-- The inner block loop never moves the line index backwards. -/
theorem parseBlock_le_snd (lines : List (List Char)) (i lc : Nat) :
    i ≤ (parseBlock lines i lc).2 := by
  unfold parseBlock
  split
  · rename_i h
    split
    · exact Nat.le_trans (Nat.le_succ i) (parseBlock_le_snd lines (i + 1) _)
    · exact Nat.le_refl i
  · exact Nat.le_refl i
termination_by lines.length - i
decreasing_by omega

/-- The outer `while i < len(lines)` loop: strip the current line, try the
author-header regex; on failure advance by one, on success read the block
starting at the next line and add its count to the author's total. -/
def parseLoop (lines : List (List Char)) (i : Nat) (stats : Dict) : Dict :=
  if h : i < lines.length then
    match headerMatch (pyStrip lines[i]) with
    | none => parseLoop lines (i + 1) stats
    | some g =>
      let name : String := ⟨pyStrip g⟩
      let r := parseBlock lines (i + 1) 0
      parseLoop lines r.2 (dictSet stats name (dictGetD stats name 0 + r.1))
  else stats
termination_by lines.length - i
decreasing_by
  · omega
  · have hle : i + 1 ≤ (parseBlock lines (i + 1) 0).2 := parseBlock_le_snd lines (i + 1) 0
    omega

/-- `parse_detailed_stats(output)`. -/
def parse_detailed_stats (output : String) : Dict :=
  let lines := splitlines output.toList
  match findStart lines 0 with
  | none => []
  | some start => parseLoop lines start []

/-! ## Bounds- and fuel-checked variant of the parsing loops

`parseBlockF` / `parseLoopF` model the Python `while` loops directly:
every access `lines[i]` goes through `List.get?` (so an out-of-range
access — Python's `IndexError` — yields `none`), and each loop iteration
consumes one unit of fuel (so a loop whose index failed to advance enough
would exhaust its fuel and also yield `none`).  Proving these equal to
the total functions above establishes that the source's loops terminate
and never access the list out of bounds. -/

/-- Checked version of the inner block loop. -/
def parseBlockF (lines : List (List Char)) : Nat → Nat → Nat → Option (Nat × Nat)
  | 0, _, _ => none
  | fuel + 1, i, lc =>
    if i < lines.length then
      match lines[i]? with
      | none => none
      | some line =>
        if startsWithSpace line then
          parseBlockF lines fuel (i + 1) ((entryMatch (pyStrip line)).getD lc)
        else some (lc, i)
    else some (lc, i)

/-- Checked version of the outer header-scanning loop. -/
def parseLoopF (lines : List (List Char)) : Nat → Nat → Dict → Option Dict
  | 0, _, _ => none
  | fuel + 1, i, stats =>
    if i < lines.length then
      match lines[i]? with
      | none => none
      | some line =>
        match headerMatch (pyStrip line) with
        | none => parseLoopF lines fuel (i + 1) stats
        | some g =>
          let name : String := ⟨pyStrip g⟩
          match parseBlockF lines (lines.length + 1) (i + 1) 0 with
          | none => none
          | some (lc, j) =>
            parseLoopF lines fuel j (dictSet stats name (dictGetD stats name 0 + lc))
    else some stats

/-- Checked version of `parse_detailed_stats`:  `none` would mean an
out-of-bounds access or a loop that failed to terminate within the fuel. -/
def parse_checked (output : String) : Option Dict :=
  let lines := splitlines output.toList
  match findStart lines 0 with
  | none => some []
  | some start => parseLoopF lines (lines.length + 1) start []

/-- Whether the `lines changed` regex fails on the stripped line. -/
def noEntryMatch (l : List Char) : Bool :=
  (entryMatch (pyStrip l)).isNone

/-- The value a block's scan assigns: each matching line overwrites the
running count, so the last match (or the initial value) wins. -/
def blockFold (lc : Nat) (blk : List (List Char)) : Nat :=
  blk.foldl (fun a l => (entryMatch (pyStrip l)).getD a) lc

/-! ## Aggregation across repositories (`gather_stats`, lines 99-101) -/

/-- The body of `for user, count in repo_stats.items(): ...`: fold one
parsed report into `(total_per_user, grand_total)`. -/
def addReport (acc : Dict × Nat) (r : Dict) : Dict × Nat :=
  r.foldl
    (fun a uc => (dictSet a.1 uc.1 (dictGetD a.1 uc.1 0 + uc.2), a.2 + uc.2))
    acc

/-- The aggregation performed by `gather_stats` over the per-repository
parsed reports, starting from the empty dict and grand total `0`. -/
def aggregateReports (reports : List Dict) : Dict × Nat :=
  reports.foldl addReport ([], 0)

/-! ## The reporter's sort (`main`, line 109)

`sorted(totals.items(), key=lambda kv: kv[1], reverse=True)` is a stable
sort by descending count.  A stable sort with respect to a total preorder
is uniquely determined by its input, so the insertion sort below produces
exactly the list Python prints: an element is inserted after every
earlier element whose count is at least as large (preserving insertion
order among equal counts) and before the first one with a smaller count. -/

/-- Stable descending insertion for the reporter's sort. -/
def insertDesc (x : String × Nat) : Dict → Dict
  | [] => [x]
  | y :: ys => if x.2 < y.2 then y :: insertDesc x ys else x :: y :: ys

/-- `sorted(totals.items(), key=lambda kv: kv[1], reverse=True)`. -/
def sortedByCountDesc (d : Dict) : Dict :=
  d.foldr insertDesc []

/-- The lines printed by `main` after aggregation. -/
def report_lines (totals : Dict) (grand : Nat) : List String :=
  "====== Total Lines Changed per User ======"
    :: ((sortedByCountDesc totals).map
          (fun uc => uc.1 ++ ": " ++ toString uc.2 ++ " lines changed"))
    ++ ["==========================================",
        "Grand total across all repos: " ++ toString grand ++ " lines changed"]

/-! ## The effectful skeleton: subprocess calls, temp dir, `main`

The environment records how the outside world behaves; the model returns
the list of external events the script performs together with either a
result or the Python exception that escapes (`subprocess.CalledProcessError`
from a `check=True` run that exits non-zero, `FileNotFoundError` from
launching a missing executable, or `SystemExit` from `sys.exit`). -/

/-- Exceptions that can escape the script. -/
inductive PyError
  | calledProcessError
  | fileNotFoundError
  | systemExit (msg : String)
  deriving DecidableEq, Repr

/-- Behaviour of the outside world. -/
structure Env where
  /-- `git-quick-stats` is on `PATH`. -/
  quickStatsInstalled : Bool
  /-- `git clone <url> <dest>` succeeds. -/
  cloneOk : String → Bool
  /-- `git -C <dest> fetch` succeeds (by repository name). -/
  fetchOk : String → Bool
  /-- `git-quick-stats -T` exits zero (by repository name). -/
  statsExit0 : String → Bool
  /-- stdout of `git-quick-stats -T` (by repository name). -/
  statsOut : String → String

/-- Externally visible events of a run. -/
inductive Event
  | probe
  | acquireTempDir
  | clone (base name : String)
  | fetch (base name : String)
  | runStats (name : String)
  | releaseTempDir
  deriving DecidableEq, Repr

/-- The hardcoded repository list `REPOS`. -/
def REPOS : List String :=
  ["git@github.com:turnitin/tii-assisted-grading-services.git",
   "git@github.com:turnitin/tii-checklist-editor-services.git",
   "git@github.com:turnitin/paper-to-digital-services.git",
   "git@github.com:turnitin/tii-mfe-lib.git",
   "git@github.com:turnitin/tii-assisted-grading-mfe.git",
   "git@github.com:turnitin/region-board.git",
   "git@github.com:turnitin/tii-router.git",
   "git@github.com:turnitin/paper-to-digital-mfe.git"]

/-- `url.rstrip("/")`. -/
def rstripSlashes (s : List Char) : List Char :=
  (s.reverse.dropWhile (fun c => c = '/')).reverse

/-- Python `str.split("/")` (always returns a nonempty list). -/
def splitOnSlash : List Char → List (List Char)
  | [] => [[]]
  | c :: t =>
    let r := splitOnSlash t
    if c = '/' then [] :: r else (c :: r.headI) :: r.tail

/-- `repo_url.rstrip("/").split("/")[-1]` from `clone_or_update`. -/
def repoLocalName (url : String) : String :=
  ⟨(splitOnSlash (rstripSlashes url.toList)).getLastD []⟩

/-- `ensure_git_quick_stats_installed()`: probes the tool once and turns
its absence into `sys.exit` with a clear message.  (Defined by the script
but never invoked by `main` — see `main_model`.) -/
def ensure_git_quick_stats_installed_model (env : Env) :
    List Event × Except PyError Unit :=
  ([.probe],
   if env.quickStatsInstalled then .ok ()
   else .error (.systemExit "Error: git-quick-stats must be installed and on your PATH"))

/-- The loop body of `gather_stats`: materialize each repository under
`base` (clone on first sight of the name, fetch if the directory already
exists), run `git-quick-stats -T` in it, parse, and accumulate.  Any
subprocess failure aborts the whole loop with the escaping exception. -/
def gatherLoop (env : Env) (base : String) :
    List String → List String → Dict × Nat → List Event × Except PyError (Dict × Nat)
  | [], _, acc => ([], .ok acc)
  | url :: rest, existing, acc =>
    let name := repoLocalName url
    let matev : Event := if existing.contains name then .fetch base name else .clone base name
    let matok : Bool := if existing.contains name then env.fetchOk name else env.cloneOk url
    if matok then
      if env.quickStatsInstalled then
        if env.statsExit0 name then
          let acc' := addReport acc (parse_detailed_stats (env.statsOut name))
          let next := gatherLoop env base rest (name :: existing) acc'
          (matev :: .runStats name :: next.1, next.2)
        else ([matev, .runStats name], .error .calledProcessError)
      else ([matev, .runStats name], .error .fileNotFoundError)
    else ([matev], .error .calledProcessError)

/-- Fixed token standing for the path of the temporary directory. -/
def tmpBase : String := "TMPDIR"

/-- `gather_stats(repos)`:  `with tempfile.TemporaryDirectory() as td:`
creates the directory, runs the loop, and — this being the context-manager
semantics — deletes the directory again whether the body returned or
raised. -/
def gather_stats_model (env : Env) (repos : List String) :
    List Event × Except PyError (Dict × Nat) :=
  let body := gatherLoop env tmpBase repos [] ([], 0)
  (.acquireTempDir :: body.1 ++ [.releaseTempDir], body.2)

/-- `main()` up to the printing phase: it calls `gather_stats(REPOS)`
directly; in particular it never calls
`ensure_git_quick_stats_installed`, so no `probe` event is emitted. -/
def main_model (env : Env) : List Event × Except PyError (Dict × Nat) :=
  gather_stats_model env REPOS

/-- Events that may occur inside the temporary-directory block, with
clones and fetches restricted to the given base directory. -/
def innerEvent (base : String) : Event → Bool
  | .clone b _ => b == base
  | .fetch b _ => b == base
  | .runStats _ => true
  | _ => false

/-- The environment in which `git-quick-stats` is missing from `PATH` and
everything else succeeds. -/
def envNoTool : Env where
  quickStatsInstalled := false
  cloneOk := fun _ => true
  fetchOk := fun _ => true
  statsExit0 := fun _ => true
  statsOut := fun _ => ""

/-! ## Lemmas about dicts -/

theorem dictGet_dictSet_self (d : Dict) (k : String) (v : Nat) :
    dictGet (dictSet d k v) k = some v := by
  induction d with
  | nil => simp [dictSet, dictGet]
  | cons p t ih =>
    obtain ⟨k', w⟩ := p
    by_cases h : k' = k
    · subst h; simp [dictSet, dictGet]
    · simp [dictSet, dictGet, h, ih]

theorem dictGet_dictSet_ne (d : Dict) (k k' : String) (v : Nat) (h : k ≠ k') :
    dictGet (dictSet d k v) k' = dictGet d k' := by
  induction d with
  | nil => simp [dictSet, dictGet, h]
  | cons p t ih =>
    obtain ⟨k'', w⟩ := p
    by_cases h2 : k'' = k
    · subst h2; simp [dictSet, dictGet, h]
    · simp [dictSet, dictGet, h2, ih]


/-! ## Lemmas about the aggregation -/

/-- Sum of the counts stored in one parsed report. -/
def sumVals (d : Dict) : Nat := (d.map Prod.snd).sum

theorem addReport_snd (r : Dict) : ∀ acc : Dict × Nat,
    (addReport acc r).2 = acc.2 + sumVals r := by
  induction r with
  | nil => intro acc; simp [addReport, sumVals]
  | cons uc rest ih =>
    intro acc
    show (addReport (dictSet acc.1 uc.1 (dictGetD acc.1 uc.1 0 + uc.2), acc.2 + uc.2) rest).2 = _
    rw [ih]
    simp [sumVals]
    omega

theorem addReport_fst_get (r : Dict) :
    noDupKeys r = true → ∀ (acc : Dict × Nat) (name : String),
    dictGetD (addReport acc r).1 name 0 = dictGetD acc.1 name 0 + dictGetD r name 0 := by
  induction r with
  | nil => intro _ acc name; simp [addReport, dictGetD, dictGet]
  | cons uc rest ih =>
    intro hr acc name
    obtain ⟨k, v⟩ := uc
    simp only [noDupKeys, Bool.and_eq_true, Option.isNone_iff_eq_none] at hr
    show dictGetD (addReport (dictSet acc.1 k (dictGetD acc.1 k 0 + v), acc.2 + v) rest).1 name 0 = _
    rw [ih hr.2]
    by_cases h : name = k
    · subst h
      have h1 : dictGetD (dictSet acc.1 name (dictGetD acc.1 name 0 + v)) name 0
          = dictGetD acc.1 name 0 + v := by simp [dictGetD, dictGet_dictSet_self]
      have h2 : dictGetD rest name 0 = 0 := by simp [dictGetD, hr.1]
      have h3 : dictGetD ((name, v) :: rest) name 0 = v := by simp [dictGetD, dictGet]
      rw [h1, h2, h3]
      omega
    · have hne : name ≠ k := h
      have h1 : dictGetD (dictSet acc.1 k (dictGetD acc.1 k 0 + v)) name 0
          = dictGetD acc.1 name 0 := by
        unfold dictGetD
        rw [dictGet_dictSet_ne _ _ _ _ (fun hh => hne hh.symm)]
      have h3 : dictGetD ((k, v) :: rest) name 0 = dictGetD rest name 0 := by
        have hkn : ¬ k = name := fun hh => hne hh.symm
        simp [dictGetD, dictGet, hkn]
      rw [h1, h3]

theorem foldl_addReport_fst (reports : List Dict) (hnd : ∀ r ∈ reports, noDupKeys r = true) :
    ∀ (acc : Dict × Nat) (name : String),
    dictGetD (reports.foldl addReport acc).1 name 0
      = dictGetD acc.1 name 0 + (reports.map (fun r => dictGetD r name 0)).sum := by
  induction reports with
  | nil => intro acc name; simp
  | cons r rs ih =>
    intro acc name
    have h1 := hnd r (List.mem_cons_self r rs)
    have h2 : ∀ x ∈ rs, noDupKeys x = true := fun x hx => hnd x (List.mem_cons_of_mem r hx)
    simp only [List.foldl_cons, List.map_cons, List.sum_cons]
    rw [ih h2, addReport_fst_get r h1]
    omega

theorem foldl_addReport_snd (reports : List Dict) : ∀ acc : Dict × Nat,
    (reports.foldl addReport acc).2 = acc.2 + (reports.map sumVals).sum := by
  induction reports with
  | nil => intro acc; simp
  | cons r rs ih =>
    intro acc
    simp only [List.foldl_cons, List.map_cons, List.sum_cons]
    rw [ih, addReport_snd]
    omega

/-! ## Lemmas about the reporter's sort -/

theorem mem_insertDesc {x y : String × Nat} {l : Dict} :
    y ∈ insertDesc x l ↔ y = x ∨ y ∈ l := by
  induction l with
  | nil => simp [insertDesc]
  | cons z zs ih =>
    simp only [insertDesc]
    split
    · simp only [List.mem_cons, ih]
      tauto
    · simp [List.mem_cons]

theorem pairwise_insertDesc {x : String × Nat} {l : Dict}
    (h : List.Pairwise (fun a b : String × Nat => b.2 ≤ a.2) l) :
    List.Pairwise (fun a b : String × Nat => b.2 ≤ a.2) (insertDesc x l) := by
  induction l with
  | nil => simp [insertDesc]
  | cons y ys ih =>
    rw [List.pairwise_cons] at h
    simp only [insertDesc]
    split
    · rename_i hlt
      rw [List.pairwise_cons]
      refine ⟨fun z hz => ?_, ih h.2⟩
      rcases mem_insertDesc.1 hz with hz | hz
      · subst hz; omega
      · exact h.1 z hz
    · rename_i hge
      rw [List.pairwise_cons]
      refine ⟨fun z hz => ?_, List.pairwise_cons.2 h⟩
      rcases List.mem_cons.1 hz with hz | hz
      · subst hz; omega
      · have := h.1 z hz; omega

theorem sortedByCountDesc_pairwise (d : Dict) :
    List.Pairwise (fun a b : String × Nat => b.2 ≤ a.2) (sortedByCountDesc d) := by
  induction d with
  | nil => simp [sortedByCountDesc]
  | cons x xs ih => exact pairwise_insertDesc ih

theorem filter_insertDesc (x : String × Nat) (l : Dict) (n : Nat) :
    (insertDesc x l).filter (fun p => p.2 == n)
      = (x :: l).filter (fun p => p.2 == n) := by
  induction l with
  | nil => simp [insertDesc]
  | cons y ys ih =>
    simp only [insertDesc]
    split
    · rename_i hlt
      simp only [List.filter_cons, ih]
      by_cases hx : (x.2 == n) = true
      · have hxn : x.2 = n := by simpa using hx
        have hy : ¬ (y.2 == n) = true := by simp; omega
        simp [hx, hy]
      · by_cases hy : (y.2 == n) = true
        · simp [hx, hy]
        · simp [hx, hy]
    · rfl

theorem filter_sortedByCountDesc (d : Dict) (n : Nat) :
    (sortedByCountDesc d).filter (fun p => p.2 == n)
      = d.filter (fun p => p.2 == n) := by
  induction d with
  | nil => simp [sortedByCountDesc]
  | cons x xs ih =>
    show (insertDesc x (sortedByCountDesc xs)).filter _ = _
    rw [filter_insertDesc]
    simp only [List.filter_cons]
    rw [ih]

theorem mem_sortedByCountDesc {y : String × Nat} {d : Dict} :
    y ∈ sortedByCountDesc d ↔ y ∈ d := by
  induction d with
  | nil => simp [sortedByCountDesc]
  | cons x xs ih =>
    show y ∈ insertDesc x (sortedByCountDesc xs) ↔ _
    rw [mem_insertDesc, ih]
    simp

/-! ## Lemmas about the parsing loops -/

theorem blockFold_of_none (blk : List (List Char))
    (hb : blk.all noEntryMatch = true) : ∀ lc : Nat, blockFold lc blk = lc := by
  induction blk with
  | nil => intro lc; rfl
  | cons b bt ih =>
    intro lc
    simp only [List.all_cons, Bool.and_eq_true, noEntryMatch,
      Option.isNone_iff_eq_none] at hb
    show blockFold ((entryMatch (pyStrip b)).getD lc) bt = lc
    rw [hb.1]
    exact ih (by simpa [noEntryMatch] using hb.2) lc

/-- Inverting `lines.drop i = b :: t`. -/
theorem drop_cons_head {α : Type} (lines : List α) (i : Nat) (b : α) (t : List α)
    (h : lines.drop i = b :: t) :
    ∃ hi : i < lines.length, lines[i] = b ∧ lines.drop (i + 1) = t := by
  have hi : i < lines.length := by
    by_contra hle
    rw [List.drop_eq_nil_of_le (by omega)] at h
    exact List.noConfusion h
  have hcd : lines[i] :: lines.drop (i + 1) = b :: t := by
    rw [List.getElem_cons_drop lines i hi, h]
  injection hcd with h1 h2
  exact ⟨hi, h1, h2⟩

/-- Characterization of the inner block loop: starting at a maximal run
`blk` of space-indented lines (ended by a non-indented line or the end of
input), it folds the `lines changed` matches over `blk` — so within a
block the last match wins — and stops at the first line after the run,
from which the outer scan resumes. -/
theorem parseBlock_spec (blk : List (List Char)) :
    ∀ (lines : List (List Char)) (i lc : Nat) (rest : List (List Char)),
    lines.drop i = blk ++ rest →
    blk.all startsWithSpace = true →
    rest.head?.all (fun l => !startsWithSpace l) = true →
    parseBlock lines i lc = (blockFold lc blk, i + blk.length) := by
  induction blk with
  | nil =>
    intro lines i lc rest hdrop _ hrest
    unfold parseBlock
    split
    · rename_i hi
      match rest, hdrop with
      | r :: rt, hdrop =>
        obtain ⟨hi', hr, _⟩ := drop_cons_head lines i r rt hdrop
        rw [if_neg]
        · simp [blockFold]
        · rw [hr]
          simp only [List.head?_cons, Option.all_some, Bool.not_eq_true'] at hrest
          simp [hrest]
      | [], hdrop =>
        exfalso
        have : (lines.drop i).length = 0 := by rw [hdrop]; rfl
        rw [List.length_drop] at this
        omega
    · simp [blockFold]
  | cons b bt ih =>
    intro lines i lc rest hdrop hall hrest
    obtain ⟨hi, hb, hdrop'⟩ := drop_cons_head lines i b (bt ++ rest) hdrop
    simp only [List.all_cons, Bool.and_eq_true] at hall
    unfold parseBlock
    rw [dif_pos hi, hb, if_pos hall.1]
    rw [ih lines (i + 1) _ rest hdrop' hall.2 hrest]
    show (blockFold ((entryMatch (pyStrip b)).getD lc) bt, i + 1 + bt.length)
      = (blockFold lc (b :: bt), i + (b :: bt).length)
    have : i + 1 + bt.length = i + (b :: bt).length := by simp; omega
    rw [this]
    rfl

/-- Unfolding the outer loop past the end of the input. -/
theorem parseLoop_of_ge (lines : List (List Char)) (i : Nat) (stats : Dict)
    (h : lines.length ≤ i) : parseLoop lines i stats = stats := by
  unfold parseLoop
  rw [dif_neg (by omega)]

/-- Unfolding the outer loop on a line that fails the header regex. -/
theorem parseLoop_skip (lines : List (List Char)) (i : Nat) (stats : Dict)
    (hi : i < lines.length) (hm : headerMatch (pyStrip lines[i]) = none) :
    parseLoop lines i stats = parseLoop lines (i + 1) stats := by
  conv_lhs => unfold parseLoop
  rw [dif_pos hi]
  simp only [hm]

/-- Unfolding the outer loop on an author header: read the block starting
on the next line, add its value to the author's running total, and resume
scanning at the first line after the block. -/
theorem parseLoop_header (lines : List (List Char)) (i : Nat) (stats : Dict) (g : List Char)
    (hi : i < lines.length) (hm : headerMatch (pyStrip lines[i]) = some g) :
    parseLoop lines i stats
      = parseLoop lines (parseBlock lines (i + 1) 0).2
          (dictSet stats ⟨pyStrip g⟩
            (dictGetD stats ⟨pyStrip g⟩ 0 + (parseBlock lines (i + 1) 0).1)) := by
  conv_lhs => unfold parseLoop
  rw [dif_pos hi]
  simp only [hm]

/-! ## The checked loops agree with the total ones -/

theorem parseBlockF_eq (lines : List (List Char)) :
    ∀ (fuel i lc : Nat), lines.length - i < fuel →
    parseBlockF lines fuel i lc = some (parseBlock lines i lc) := by
  intro fuel
  induction fuel with
  | zero => intro i lc h; omega
  | succ fuel ih =>
    intro i lc h
    by_cases hi : i < lines.length
    · simp only [parseBlockF]
      rw [if_pos hi, List.getElem?_eq_getElem hi]
      show (if startsWithSpace lines[i] = true then
              parseBlockF lines fuel (i + 1) ((entryMatch (pyStrip lines[i])).getD lc)
            else some (lc, i)) = some (parseBlock lines i lc)
      by_cases hs : startsWithSpace lines[i]
      · rw [if_pos hs, ih (i + 1) _ (by omega)]
        conv_rhs => unfold parseBlock
        rw [dif_pos hi, if_pos hs]
      · rw [if_neg hs]
        conv_rhs => unfold parseBlock
        rw [dif_pos hi, if_neg hs]
    · simp only [parseBlockF]
      rw [if_neg hi]
      conv_rhs => unfold parseBlock
      rw [dif_neg hi]

theorem parseLoopF_eq (lines : List (List Char)) :
    ∀ (fuel i : Nat) (stats : Dict), lines.length - i < fuel →
    parseLoopF lines fuel i stats = some (parseLoop lines i stats) := by
  intro fuel
  induction fuel with
  | zero => intro i stats h; omega
  | succ fuel ih =>
    intro i stats h
    by_cases hi : i < lines.length
    · simp only [parseLoopF]
      rw [if_pos hi, List.getElem?_eq_getElem hi]
      cases hm : headerMatch (pyStrip lines[i]) with
      | none =>
        simp only [hm]
        rw [ih (i + 1) stats (by omega), parseLoop_skip lines i stats hi hm]
      | some g =>
        simp only [hm]
        rw [parseBlockF_eq lines (lines.length + 1) (i + 1) 0 (by omega)]
        rw [parseLoop_header lines i stats g hi hm]
        cases hp : parseBlock lines (i + 1) 0 with
        | mk lc j =>
          have hj := parseBlock_le_snd lines (i + 1) 0
          rw [hp] at hj
          exact ih j _ (by simp at hj; omega)
    · simp only [parseLoopF]
      rw [if_neg hi, parseLoop_of_ge lines i stats (by omega)]

/-! ## `in`-containment, and lines are substrings of the input -/

theorem containsSub_iff (needle : List Char) :
    ∀ hay, containsSub hay needle = true ↔ needle <:+: hay := by
  intro hay
  induction hay with
  | nil =>
    show (if needle.isPrefixOf [] then true else false) = true ↔ _
    by_cases hp : needle.isPrefixOf ([] : List Char)
    · rw [if_pos hp]
      simp only [true_iff]
      exact (List.isPrefixOf_iff_prefix.1 hp).isInfix
    · rw [if_neg hp]
      simp only [Bool.false_eq_true, false_iff]
      intro hinf
      exact hp (List.isPrefixOf_iff_prefix.2 (by simp [List.infix_nil.1 hinf]))
  | cons c t ih =>
    show (if needle.isPrefixOf (c :: t) then true else containsSub t needle) = true ↔ _
    rw [List.infix_cons_iff]
    by_cases hp : needle.isPrefixOf (c :: t)
    · simp [hp, List.isPrefixOf_iff_prefix.1 hp]
    · rw [if_neg hp, ih]
      have hnp : ¬ needle <+: (c :: t) := fun hc => hp (List.isPrefixOf_iff_prefix.2 hc)
      tauto

/-- Every line produced by `splitlinesAux` is a contiguous substring of
the text (with the pending accumulator prepended). -/
theorem splitlinesAux_mem_sub (cs : List Char) : ∀ (acc l : List Char),
    l ∈ splitlinesAux cs acc → l <:+: (acc.reverse ++ cs) := by
  rcases cs with _ | ⟨c, rest⟩
  · intro acc l hl
    rw [show splitlinesAux [] acc = if acc.isEmpty then [] else [acc.reverse] from rfl] at hl
    split at hl
    · simp at hl
    · rw [List.mem_singleton] at hl
      subst hl
      rw [List.append_nil]
  · intro acc l hl
    rw [splitlinesAux_cons] at hl
    by_cases hcr : c = '\r' ∧ rest.head? = some '\n'
    · rw [if_pos hcr] at hl
      rcases List.mem_cons.1 hl with h | h
      · subst h
        exact (List.prefix_append _ _).isInfix
      · have hrec := splitlinesAux_mem_sub rest.tail [] l h
        rw [List.reverse_nil, List.nil_append] at hrec
        have hsuf : rest.tail <:+ c :: rest :=
          (List.tail_suffix rest).trans (List.suffix_cons c rest)
        exact hrec.trans ((hsuf.trans (List.suffix_append acc.reverse (c :: rest))).isInfix)
    · rw [if_neg hcr] at hl
      by_cases hbr : isLineBreak c
      · rw [if_pos hbr] at hl
        rcases List.mem_cons.1 hl with h | h
        · subst h
          exact (List.prefix_append _ _).isInfix
        · have hrec := splitlinesAux_mem_sub rest [] l h
          rw [List.reverse_nil, List.nil_append] at hrec
          exact hrec.trans
            (((List.suffix_cons c rest).trans
              (List.suffix_append acc.reverse (c :: rest))).isInfix)
      · rw [if_neg hbr] at hl
        have hrec := splitlinesAux_mem_sub rest (c :: acc) l hl
        rw [List.reverse_cons, List.append_assoc] at hrec
        simpa using hrec
termination_by cs.length
decreasing_by
  all_goals simp only [List.length_cons, List.length_tail]
  all_goals omega

theorem splitlines_mem_sub {cs l : List Char} (h : l ∈ splitlines cs) :
    l <:+: cs := by
  have := splitlinesAux_mem_sub cs [] l h
  simpa using this

theorem findStart_eq_none (ls : List (List Char))
    (h : ∀ l ∈ ls, containsSub l markerChars = false) : ∀ i, findStart ls i = none := by
  induction ls with
  | nil => intro i; rfl
  | cons l t ih =>
    intro i
    show (if containsSub l markerChars then some (i + 1) else findStart t (i + 1)) = none
    rw [if_neg (by simp [h l (List.mem_cons_self l t)]), ih
      (fun x hx => h x (List.mem_cons_of_mem l hx)) (i + 1)]

theorem parse_checked_eq (s : String) :
    parse_checked s = some (parse_detailed_stats s) := by
  simp only [parse_checked, parse_detailed_stats]
  cases hf : findStart (splitlines s.toList) 0 with
  | none => simp
  | some start =>
    simp only
    exact parseLoopF_eq _ _ _ _ (by omega)

/-! ## Trace lemmas for `gather_stats` -/

theorem gatherLoop_events_inner (env : Env) (base : String) :
    ∀ (repos existing : List String) (acc : Dict × Nat),
    (gatherLoop env base repos existing acc).1.all (innerEvent base) = true := by
  intro repos
  induction repos with
  | nil => intro existing acc; rfl
  | cons url rest ih =>
    intro existing acc
    by_cases hc : repoLocalName url ∈ existing <;>
    by_cases hf : env.fetchOk (repoLocalName url) <;>
    by_cases hcl : env.cloneOk url <;>
    by_cases hq : env.quickStatsInstalled <;>
    by_cases hs : env.statsExit0 (repoLocalName url) <;>
    simp [gatherLoop, hc, hf, hcl, hq, hs, innerEvent, ih]

/-! # The claims -/

/-- C1: the aggregator sums counts per author name (exact string match)
across the per-repository parsed mappings and accumulates a grand total
equal to the sum of every individual count added; on the spec's example,
aggregating `{"Alice": 10}` and `{"Alice": 5, "Bob": 3}` yields
`{"Alice": 15, "Bob": 3}` with grand total `18`. -/
theorem claim_C1_aggregation (reports : List Dict)
    (hnd : reports.all noDupKeys = true) :
    (∀ name : String,
        dictGetD (aggregateReports reports).1 name 0
          = (reports.map (fun r => dictGetD r name 0)).sum)
    ∧ (aggregateReports reports).2 = (reports.map sumVals).sum
    ∧ aggregateReports [[("Alice", 10)], [("Alice", 5), ("Bob", 3)]]
        = ([("Alice", 15), ("Bob", 3)], 18) := by
  refine ⟨fun name => ?_, ?_, rfl⟩
  · have h := foldl_addReport_fst reports (List.all_eq_true.1 hnd) ([], 0) name
    simpa [aggregateReports, dictGetD, dictGet] using h
  · have h := foldl_addReport_snd reports ([], 0)
    simpa [aggregateReports] using h

/-- Witness for C1: the hypothesis (unique keys per parsed report) holds
at the spec's concrete example and the theorem computes its aggregate. -/
theorem claim_C1_aggregation_witness :
    ([[("Alice", 10)], [("Alice", 5), ("Bob", 3)]] : List Dict).all noDupKeys = true
    ∧ aggregateReports [[("Alice", 10)], [("Alice", 5), ("Bob", 3)]]
        = ([("Alice", 15), ("Bob", 3)], 18) :=
  ⟨by decide,
   (claim_C1_aggregation [[("Alice", 10)], [("Alice", 5), ("Bob", 3)]] (by decide)).2.2⟩

/-- C7: the reporter lists authors sorted by descending count; the sort is
stable, so authors with equal counts keep their original (insertion)
order — expressed by the count-class filters being preserved — and every
author of the aggregate appears; on the spec's example
`{"Alice": 15, "Bob": 3, "Carol": 15}` the printed order is Alice, Carol,
Bob. -/
theorem claim_C7_reporter_sort (d : Dict) :
    List.Pairwise (fun a b : String × Nat => b.2 ≤ a.2) (sortedByCountDesc d)
    ∧ (∀ n : Nat, (sortedByCountDesc d).filter (fun p => p.2 == n)
        = d.filter (fun p => p.2 == n))
    ∧ (∀ p : String × Nat, p ∈ sortedByCountDesc d ↔ p ∈ d)
    ∧ sortedByCountDesc [("Alice", 15), ("Bob", 3), ("Carol", 15)]
        = [("Alice", 15), ("Carol", 15), ("Bob", 3)]
    ∧ report_lines [("Alice", 15), ("Bob", 3), ("Carol", 15)] 33
        = ["====== Total Lines Changed per User ======",
           "Alice: 15 lines changed", "Carol: 15 lines changed",
           "Bob: 3 lines changed",
           "==========================================",
           "Grand total across all repos: 33 lines changed"] :=
  ⟨sortedByCountDesc_pairwise d, fun n => filter_sortedByCountDesc d n,
   fun _ => mem_sortedByCountDesc, rfl, rfl⟩

/-- C4: a report text containing no occurrence of the marker heading
`"Contribution stats By Author"` parses to the empty mapping — a result,
not an error. -/
theorem claim_C4_no_marker (s : String)
    (h : containsSub s.toList markerChars = false) :
    parse_detailed_stats s = [] := by
  unfold parse_detailed_stats
  have hall : ∀ l ∈ splitlines s.toList, containsSub l markerChars = false := by
    intro l hl
    cases hb : containsSub l markerChars
    · rfl
    · exfalso
      have hinf : markerChars <:+: l := (containsSub_iff _ _).1 hb
      have hinf2 : markerChars <:+: s.toList := hinf.trans (splitlines_mem_sub hl)
      rw [(containsSub_iff _ _).2 hinf2] at h
      exact Bool.noConfusion h
  show (match findStart (splitlines s.toList) 0 with
        | none => []
        | some start => parseLoop (splitlines s.toList) start []) = ([] : Dict)
  rw [findStart_eq_none _ hall 0]

/-- Witness for C4 at a concrete marker-less report. -/
theorem claim_C4_no_marker_witness :
    containsSub "no marker here\nBob <b@c>:\n  lines changed: 4".toList markerChars = false
    ∧ parse_detailed_stats "no marker here\nBob <b@c>:\n  lines changed: 4" = [] :=
  ⟨by decide, claim_C4_no_marker _ (by decide)⟩

/-- C10: on every input string, well formed or not, the parser terminates
and returns a mapping without raising: the checked interpreter of the two
loops — in which every `lines[i]` access is bounds-checked and each loop
iteration consumes fuel — never returns `none` and agrees with the total
parser. -/
theorem claim_C10_parser_total (s : String) :
    parse_checked s = some (parse_detailed_stats s) :=
  parse_checked_eq s

/-- C9: all clones and fetches of a run target the single process-scoped
temporary directory, which is acquired as the run's first action and
released as its last, on every exit path — the trace shape below holds
for every environment, in particular for runs that fail partway through
a clone, fetch or stats invocation. -/
theorem claim_C9_tempdir_lifetime (env : Env) (repos : List String) :
    ∃ evs : List Event,
      (gather_stats_model env repos).1
        = Event.acquireTempDir :: evs ++ [Event.releaseTempDir]
      ∧ evs.all (innerEvent tmpBase) = true
      ∧ (gather_stats_model env repos).1.getLast? = some Event.releaseTempDir := by
  refine ⟨(gatherLoop env tmpBase repos [] ([], 0)).1, rfl,
    gatherLoop_events_inner env tmpBase repos [] ([], 0), ?_⟩
  show ((Event.acquireTempDir :: (gatherLoop env tmpBase repos [] ([], 0)).1)
      ++ [Event.releaseTempDir]).getLast? = some Event.releaseTempDir
  exact List.getLast?_concat _

/-- C2: when the marker heading is followed by exactly one author block
(`hdr` then the indented lines `b1 ++ e :: b2` up to end of input), and
`e` is the block's last line matching `lines changed: <integer>` (value
`N`; no line of `b2` matches), the parser returns exactly `N` for that
author: the last match of a block wins because the assignment overwrites,
and with exactly one matching line (`b1` matching nowhere) the count is
that line's `N` exactly. -/
theorem claim_C2_single_block_count (s : String) (start : Nat)
    (hdr g e : List Char) (b1 b2 : List (List Char)) (N : Nat)
    (hfind : findStart (splitlines s.toList) 0 = some start)
    (hdrop : (splitlines s.toList).drop start = hdr :: (b1 ++ e :: b2))
    (hg : headerMatch (pyStrip hdr) = some g)
    (hb1 : b1.all startsWithSpace = true)
    (he : startsWithSpace e = true)
    (hb2 : b2.all startsWithSpace = true)
    (hN : entryMatch (pyStrip e) = some N)
    (hlast : b2.all noEntryMatch = true) :
    parse_detailed_stats s = [(⟨pyStrip g⟩, N)] := by
  obtain ⟨hstart, hhdr, hdrop1⟩ := drop_cons_head _ start hdr _ hdrop
  have hblk : (splitlines s.toList).drop (start + 1) = (b1 ++ e :: b2) ++ [] := by
    rw [List.append_nil]; exact hdrop1
  have hall : (b1 ++ e :: b2).all startsWithSpace = true := by
    simp only [List.all_append, List.all_cons, Bool.and_eq_true]
    exact ⟨hb1, he, hb2⟩
  have hpb := parseBlock_spec (b1 ++ e :: b2) (splitlines s.toList) (start + 1) 0 []
    hblk hall rfl
  have hval : blockFold 0 (b1 ++ e :: b2) = N := by
    show ((b1 ++ e :: b2).foldl (fun a l => (entryMatch (pyStrip l)).getD a) 0) = N
    rw [List.foldl_append]
    show blockFold ((entryMatch (pyStrip e)).getD (blockFold 0 b1)) b2 = N
    rw [hN]
    exact blockFold_of_none b2 hlast N
  have hlen : (splitlines s.toList).length = start + 1 + (b1 ++ e :: b2).length := by
    have h1 : ((splitlines s.toList).drop (start + 1)).length = (b1 ++ e :: b2).length := by
      rw [hdrop1]
    rw [List.length_drop] at h1
    omega
  show (match findStart (splitlines s.toList) 0 with
        | none => []
        | some st => parseLoop (splitlines s.toList) st []) = [(⟨pyStrip g⟩, N)]
  rw [hfind]
  show parseLoop (splitlines s.toList) start [] = _
  rw [parseLoop_header _ start [] g hstart (by rw [hhdr]; exact hg)]
  simp only [hpb, hval]
  rw [parseLoop_of_ge _ _ _ (by omega)]
  simp [dictGetD, dictGet, dictSet]

/-- Witness for C2: a concrete report with one author block whose last
`lines changed` line has value 7 (an earlier one has value 42). -/
theorem claim_C2_single_block_count_witness :
    findStart (splitlines ("Contribution stats By Author\nJohn Doe <jd@x.io>:\n  lines changed: 42\n  lines changed: 7").toList) 0 = some 1
    ∧ (splitlines ("Contribution stats By Author\nJohn Doe <jd@x.io>:\n  lines changed: 42\n  lines changed: 7").toList).drop 1
        = "John Doe <jd@x.io>:".toList
            :: (["  lines changed: 42".toList] ++ "  lines changed: 7".toList :: [])
    ∧ headerMatch (pyStrip "John Doe <jd@x.io>:".toList) = some "John Doe".toList
    ∧ entryMatch (pyStrip "  lines changed: 7".toList) = some 7
    ∧ parse_detailed_stats
        "Contribution stats By Author\nJohn Doe <jd@x.io>:\n  lines changed: 42\n  lines changed: 7"
        = [("John Doe", 7)] :=
  ⟨by decide, by decide, by decide, by decide,
   claim_C2_single_block_count
     "Contribution stats By Author\nJohn Doe <jd@x.io>:\n  lines changed: 42\n  lines changed: 7"
     1 "John Doe <jd@x.io>:".toList "John Doe".toList "  lines changed: 7".toList
     ["  lines changed: 42".toList] [] 7 (by decide) (by decide) (by decide) (by decide)
     (by decide) (by decide) (by decide) (by decide)⟩

/-- C3: when the same author name heads two separate blocks within one
report (marker, then a block for the name, then a second block for the
same name up to end of input), the parser maps the name to the sum of
the two blocks' counts — later blocks add to, not overwrite, the running
total. -/
theorem claim_C3_recurring_author (s : String) (start : Nat)
    (hdr1 g1 hdr2 g2 : List Char) (blk1 blk2 : List (List Char))
    (hfind : findStart (splitlines s.toList) 0 = some start)
    (hdrop : (splitlines s.toList).drop start = hdr1 :: (blk1 ++ hdr2 :: blk2))
    (hg1 : headerMatch (pyStrip hdr1) = some g1)
    (hb1 : blk1.all startsWithSpace = true)
    (hh2 : startsWithSpace hdr2 = false)
    (hg2 : headerMatch (pyStrip hdr2) = some g2)
    (hname : pyStrip g1 = pyStrip g2)
    (hb2 : blk2.all startsWithSpace = true) :
    parse_detailed_stats s
      = [(⟨pyStrip g1⟩, blockFold 0 blk1 + blockFold 0 blk2)] := by
  obtain ⟨hstart, hhdr1, hdrop1⟩ := drop_cons_head _ start hdr1 _ hdrop
  have hpb1 := parseBlock_spec blk1 (splitlines s.toList) (start + 1) 0 (hdr2 :: blk2)
    hdrop1 hb1 (by simp [hh2])
  set j := start + 1 + blk1.length with hj
  have hdrop2 : (splitlines s.toList).drop j = hdr2 :: blk2 := by
    calc (splitlines s.toList).drop j
        = ((splitlines s.toList).drop (start + 1)).drop blk1.length := by
          rw [List.drop_drop]
      _ = (blk1 ++ hdr2 :: blk2).drop blk1.length := by rw [hdrop1]
      _ = hdr2 :: blk2 := List.drop_left _ _
  obtain ⟨hjlt, hhdr2, hdrop3⟩ := drop_cons_head _ j hdr2 _ hdrop2
  have hpb2 := parseBlock_spec blk2 (splitlines s.toList) (j + 1) 0 []
    (by rw [List.append_nil]; exact hdrop3) hb2 rfl
  have hlen : (splitlines s.toList).length = j + 1 + blk2.length := by
    have h1 : ((splitlines s.toList).drop (j + 1)).length = blk2.length := by rw [hdrop3]
    rw [List.length_drop] at h1
    omega
  show (match findStart (splitlines s.toList) 0 with
        | none => []
        | some st => parseLoop (splitlines s.toList) st []) = _
  rw [hfind]
  show parseLoop (splitlines s.toList) start [] = _
  rw [parseLoop_header _ start [] g1 hstart (by rw [hhdr1]; exact hg1)]
  simp only [hpb1]
  rw [parseLoop_header _ j _ g2 hjlt (by rw [hhdr2]; exact hg2)]
  simp only [hpb2]
  rw [parseLoop_of_ge _ _ _ (by omega)]
  have hname' : (⟨pyStrip g2⟩ : String) = ⟨pyStrip g1⟩ := by rw [hname]
  rw [hname']
  simp [dictSet, dictGetD, dictGet]

/-- Witness for C3: a concrete report in which author `A` appears as the
header of two separate blocks, with counts 3 and 4. -/
theorem claim_C3_recurring_author_witness :
    findStart (splitlines ("Contribution stats By Author\nA <a@b>:\n  lines changed: 3\nA <a@b>:\n  lines changed: 4").toList) 0 = some 1
    ∧ (splitlines ("Contribution stats By Author\nA <a@b>:\n  lines changed: 3\nA <a@b>:\n  lines changed: 4").toList).drop 1
        = "A <a@b>:".toList
            :: (["  lines changed: 3".toList] ++ "A <a@b>:".toList :: ["  lines changed: 4".toList])
    ∧ blockFold 0 ["  lines changed: 3".toList] = 3
    ∧ blockFold 0 ["  lines changed: 4".toList] = 4
    ∧ parse_detailed_stats
        "Contribution stats By Author\nA <a@b>:\n  lines changed: 3\nA <a@b>:\n  lines changed: 4"
        = [("A", 3 + 4)] :=
  ⟨by decide, by decide, by decide, by decide,
   claim_C3_recurring_author
     "Contribution stats By Author\nA <a@b>:\n  lines changed: 3\nA <a@b>:\n  lines changed: 4"
     1 "A <a@b>:".toList "A".toList "A <a@b>:".toList "A".toList
     ["  lines changed: 3".toList] ["  lines changed: 4".toList]
     (by decide) (by decide) (by decide) (by decide) (by decide) (by decide) (by decide)
     (by decide)⟩

/-- C5: an author block containing no `lines changed` line still records
its author explicitly, with count 0: for a report that is the marker
followed by one such block, the author's name is a key of the result and
its value is 0. -/
theorem claim_C5_block_without_count (s : String) (start : Nat)
    (hdr g : List Char) (blk : List (List Char))
    (hfind : findStart (splitlines s.toList) 0 = some start)
    (hdrop : (splitlines s.toList).drop start = hdr :: blk)
    (hg : headerMatch (pyStrip hdr) = some g)
    (hb : blk.all startsWithSpace = true)
    (hnone : blk.all noEntryMatch = true) :
    parse_detailed_stats s = [(⟨pyStrip g⟩, 0)] := by
  obtain ⟨hstart, hhdr, hdrop1⟩ := drop_cons_head _ start hdr _ hdrop
  have hpb := parseBlock_spec blk (splitlines s.toList) (start + 1) 0 []
    (by rw [List.append_nil]; exact hdrop1) hb rfl
  have hval : blockFold 0 blk = 0 := blockFold_of_none blk hnone 0
  have hlen : (splitlines s.toList).length = start + 1 + blk.length := by
    have h1 : ((splitlines s.toList).drop (start + 1)).length = blk.length := by rw [hdrop1]
    rw [List.length_drop] at h1
    omega
  show (match findStart (splitlines s.toList) 0 with
        | none => []
        | some st => parseLoop (splitlines s.toList) st []) = _
  rw [hfind]
  show parseLoop (splitlines s.toList) start [] = _
  rw [parseLoop_header _ start [] g hstart (by rw [hhdr]; exact hg)]
  simp only [hpb, hval]
  rw [parseLoop_of_ge _ _ _ (by omega)]
  simp [dictSet, dictGetD, dictGet]

/-- Witness for C5: a concrete report whose single author block has no
`lines changed` line; the author is present with count 0. -/
theorem claim_C5_block_without_count_witness :
    findStart (splitlines ("Contribution stats By Author\nA <a@b>:\n  insertions: 9\n  deletions: 2").toList) 0 = some 1
    ∧ (["  insertions: 9".toList, "  deletions: 2".toList] : List (List Char)).all noEntryMatch = true
    ∧ parse_detailed_stats "Contribution stats By Author\nA <a@b>:\n  insertions: 9\n  deletions: 2"
        = [("A", 0)] :=
  ⟨by decide, by decide,
   claim_C5_block_without_count
     "Contribution stats By Author\nA <a@b>:\n  insertions: 9\n  deletions: 2"
     1 "A <a@b>:".toList "A".toList
     ["  insertions: 9".toList, "  deletions: 2".toList]
     (by decide) (by decide) (by decide) (by decide) (by decide)⟩

/-- C6 as stated ("lines beginning with whitespace — any whitespace
character — belong to the block") is false on the code, which tests
`startswith(" ")`: in this report the tab-indented `lines changed: 5`
line begins with whitespace but is NOT part of author `A`'s block, so the
count stays 0 instead of the 5 the claim would require. -/
theorem claim_C6_counterexample :
    parse_detailed_stats "Contribution stats By Author\nA <a@b.c>:\n\tlines changed: 5"
      = [("A", 0)]
    ∧ parse_detailed_stats "Contribution stats By Author\nA <a@b.c>:\n\tlines changed: 5"
      ≠ [("A", 5)]
    ∧ "\tlines changed: 5".toList.head? = some '\t'
    ∧ Char.isWhitespace '\t' = true
    ∧ startsWithSpace "\tlines changed: 5".toList = false := by
  have h := parse_checked_eq "Contribution stats By Author\nA <a@b.c>:\n\tlines changed: 5"
  have h2 : parse_checked "Contribution stats By Author\nA <a@b.c>:\n\tlines changed: 5"
      = some [("A", 0)] := by decide
  have h3 : parse_detailed_stats "Contribution stats By Author\nA <a@b.c>:\n\tlines changed: 5"
      = [("A", 0)] := Option.some.inj (h.symm.trans h2)
  refine ⟨h3, ?_, rfl, rfl, rfl⟩
  rw [h3]
  decide

/-- C6 amended: the lines immediately following an author header that
begin with a space character (U+0020) belong to that author's block; the
block ends at the first line not beginning with a space (a tab does not
continue a block) or at end of input, and the returned index — from
which the outer header scan resumes — is exactly that first line's
position. -/
theorem claim_C6_amended (lines : List (List Char)) (i lc : Nat)
    (blk rest : List (List Char))
    (hdrop : lines.drop i = blk ++ rest)
    (hblk : blk.all startsWithSpace = true)
    (hrest : rest.head?.all (fun l => !startsWithSpace l) = true) :
    parseBlock lines i lc = (blockFold lc blk, i + blk.length) :=
  parseBlock_spec blk lines i lc rest hdrop hblk hrest

/-- Witness for the amended C6: a two-line space-indented block followed
by a non-indented line; the block loop consumes exactly the two indented
lines and stops at index 2. -/
theorem claim_C6_amended_witness :
    ([" a".toList, " b".toList] : List (List Char)).all startsWithSpace = true
    ∧ (["x".toList] : List (List Char)).head?.all (fun l => !startsWithSpace l) = true
    ∧ parseBlock [" a".toList, " b".toList, "x".toList] 0 0
        = (blockFold 0 [" a".toList, " b".toList], 0 + 2) :=
  ⟨by decide, by decide,
   claim_C6_amended [" a".toList, " b".toList, "x".toList] 0 0
     [" a".toList, " b".toList] ["x".toList] (by decide) (by decide) (by decide)⟩

/-- C8 is refuted by the code: `main` never calls
`ensure_git_quick_stats_installed` (the probe exists but is dead code),
so with the tool missing the run clones the first repository and then
dies with an uncaught `FileNotFoundError` from launching
`git-quick-stats -T` — no probe event occurs, no clean `sys.exit`
message is printed, and a repository is processed before the failure.
The last conjunct shows the intended startup probe the script defines
but never invokes. -/
theorem claim_C8_missing_tool_behaviour :
    (main_model envNoTool).1
      = [Event.acquireTempDir,
         Event.clone tmpBase "tii-assisted-grading-services.git",
         Event.runStats "tii-assisted-grading-services.git",
         Event.releaseTempDir]
    ∧ (main_model envNoTool).2 = Except.error PyError.fileNotFoundError
    ∧ Event.probe ∉ (main_model envNoTool).1
    ∧ (ensure_git_quick_stats_installed_model envNoTool).2
        = Except.error (PyError.systemExit
            "Error: git-quick-stats must be installed and on your PATH") := by
  refine ⟨rfl, rfl, ?_, rfl⟩
  decide

end P2D
